import Mathlib

/-!
Verification of the `testt` package (openconfig/testt, file `testt.go`).

The package runs a function under test against a fake `testing.TB`
(`fakeT`) that turns fatal calls into a typed panic (`failure`), records
soft errors, and delegates logging to the real `testing.TB`.  We embed the
code shallowly: a function under test is a finite trace of calls it makes
on the `testing.TB` it receives (plus the possibility of a foreign panic),
and each exported harness function is a Lean function on that trace and on
the state of the real test context.
-/

namespace Testt

/-- A Go value passed to a formatting call.  Only the kinds of operands the
claims exercise are modelled (strings and integers). -/
inductive GoVal where
  | str (s : String)
  | int (n : Int)
deriving DecidableEq

/-- Default ("%v") rendering of an operand, as `fmt` renders strings and
integers. -/
def GoVal.render : GoVal → String
  | .str s => s
  | .int n => toString n

/-- Model of `fmt.Sprintln`: operands rendered with default formatting,
separated by single spaces, with a trailing newline. -/
def sprintln (args : List GoVal) : String :=
  String.intercalate " " (args.map GoVal.render) ++ "\n"

/-- Character-level worker for `sprintf`; handles the verbs `%d`, `%s`,
`%v` and the escape `%%`, which are the only verbs the package and the
claims use. -/
def sprintfAux : List Char → List GoVal → List Char
  | [], _ => []
  | '%' :: '%' :: rest, as => '%' :: sprintfAux rest as
  | '%' :: c :: rest, as =>
    if c = 'd' ∨ c = 's' ∨ c = 'v' then
      match as with
      | a :: as2 => a.render.data ++ sprintfAux rest as2
      | [] => '%' :: '!' :: c :: sprintfAux rest []
    else '%' :: c :: sprintfAux rest as
  | c :: rest, as => c :: sprintfAux rest as

/-- Model of `fmt.Sprintf` restricted to the verbs used by the package. -/
def sprintf (format : String) (args : List GoVal) : String :=
  String.mk (sprintfAux format.data args)

/-- One call the function under test makes on the `testing.TB` it is
handed, or one way it terminates abnormally on its own.  `callUnimplemented`
models invoking a `testing.TB` method `fakeT` does not override: the call
dispatches to the nil embedded `testing.TB` and panics with a runtime
error (a non-`failure` panic).  `panicOther` models the function itself
panicking with a value that is not of type `failure` (from outside the
package the unexported type `failure` cannot be named, so a function under
test cannot forge one). -/
inductive TAction where
  | failNow
  | fatal (args : List GoVal)
  | fatalf (format : String) (args : List GoVal)
  | error (args : List GoVal)
  | errorf (format : String) (args : List GoVal)
  | log (args : List GoVal)
  | logf (format : String) (args : List GoVal)
  | helper
  | callUnimplemented (method : String)
  | panicOther (v : String)
deriving DecidableEq

/-- The panic message Go produces when a method is invoked on a nil
embedded interface value. -/
def nilDerefMsg : String :=
  "runtime error: invalid memory address or nil pointer dereference"

/-- A Go panic value as the package can observe it: either the package's
own `failure` type (a string), or anything else. -/
inductive PanicVal where
  | failureVal (msg : String)
  | other (v : String)
deriving DecidableEq

/-- How one invocation of the function under test ends: a normal return or
a panic. -/
inductive RunOutcome where
  | normal
  | panicked (v : PanicVal)
deriving DecidableEq

/-- The state of the real `testing.TB` passed in by the caller: the log
lines delegated to it and the fatal failures raised on it. -/
structure RealT where
  logs : List String
  fatals : List String
deriving DecidableEq

/-- State threaded through one invocation of the function under test: the
`errs` field of the fresh `fakeT`, and the real context it wraps. -/
structure RunState where
  errs : List String
  realT : RealT
deriving DecidableEq

/-- A function under test: its `runtime.FuncForPC` identity string (not
assumed unique) and the trace of calls it makes, in order; it returns
normally after the last action unless an action terminates it first. -/
structure Fn where
  name : String
  actions : List TAction
deriving DecidableEq

/-- Run the trace against a `fakeT`: fatal-family calls panic with a
`failure` (`fakeT.fatal`), `Error`/`Errorf` append to `errs`, `Log`/`Logf`
delegate to the real context, `Helper` is a no-op, and an unimplemented
method or a foreign panic ends the run with a non-`failure` panic. -/
def runActions : List TAction → RunState → RunOutcome × RunState
  | [], s => (.normal, s)
  | .failNow :: _, s => (.panicked (.failureVal ""), s)
  | .fatal args :: _, s => (.panicked (.failureVal (sprintln args)), s)
  | .fatalf f args :: _, s => (.panicked (.failureVal (sprintf f args)), s)
  | .error args :: rest, s =>
      runActions rest { s with errs := s.errs ++ [sprintln args] }
  | .errorf f args :: rest, s =>
      runActions rest { s with errs := s.errs ++ [sprintf f args] }
  | .log args :: rest, s =>
      runActions rest
        { s with realT := { s.realT with logs := s.realT.logs ++ [sprintln args] } }
  | .logf f args :: rest, s =>
      runActions rest
        { s with realT := { s.realT with logs := s.realT.logs ++ [sprintf f args] } }
  | .helper :: rest, s => runActions rest s
  | .callUnimplemented _ :: _, s => (.panicked (.other nilDerefMsg), s)
  | .panicOther v :: _, s => (.panicked (.other v), s)

/-- What `CaptureFatal` does with the run: return a `*string` (`ret`), or
let a non-`failure` panic continue unwinding (`panicked`). -/
inductive CapResult where
  | ret (msg : Option String)
  | panicked (v : PanicVal)
deriving DecidableEq

/-- `CaptureFatal(t, fn)`: run `fn` against a fresh `fakeT` wrapping `t`
under a deferred `recover`; a `failure` panic becomes the returned
message, a normal return yields `nil`, and any other panic is re-raised
(`panic(r)` in the `default` branch of the type switch). -/
def CaptureFatal (t : RealT) (fn : Fn) : CapResult × RealT :=
  let r := runActions fn.actions ⟨[], t⟩
  (match r.1 with
   | .normal => .ret none
   | .panicked (.failureVal m) => .ret (some m)
   | .panicked (.other v) => .panicked (.other v),
   r.2.realT)

/-- How `ExpectFatal` ends: returning the captured message, raising
`t.Fatalf` on the real context (which aborts the test, so nothing is
returned), or letting a foreign panic through. -/
inductive ExpectFatalResult where
  | ret (msg : String)
  | fatalOnReal
  | panicked (v : PanicVal)
deriving DecidableEq

/-- `ExpectFatal(t, fn)`: if `CaptureFatal` captured a message, return it;
otherwise call `t.Fatalf("%s did not fail fatally as expected",
funcName(fn))` on the real context. -/
def ExpectFatal (t : RealT) (fn : Fn) : ExpectFatalResult × RealT :=
  let r := CaptureFatal t fn
  match r.1 with
  | .ret (some m) => (.ret m, r.2)
  | .ret none =>
      (.fatalOnReal,
        { r.2 with fatals := r.2.fatals ++
            [sprintf "%s did not fail fatally as expected" [.str fn.name]] })
  | .panicked v => (.panicked v, r.2)

/-- How `ExpectError` ends: returning the recorded error strings, raising
`t.Fatalf` on the real context, or a panic unwinding out of it (it
installs no recover barrier, so even a `failure` panic escapes). -/
inductive ExpectErrorResult where
  | ret (errs : List String)
  | fatalOnReal
  | panicked (v : PanicVal)
deriving DecidableEq

/-- `ExpectError(t, fn)`: run `fn` against a fresh `fakeT` with no
barrier; if the recorded `errs` are empty (`ft.errs == nil`), call
`t.Fatalf("%s did not raise an error as was expected", funcName(fn))`,
else return `ft.errs`. -/
def ExpectError (t : RealT) (fn : Fn) : ExpectErrorResult × RealT :=
  let r := runActions fn.actions ⟨[], t⟩
  match r.1 with
  | .normal =>
      if r.2.errs.isEmpty then
        (.fatalOnReal,
          { r.2.realT with fatals := r.2.realT.fatals ++
              [sprintf "%s did not raise an error as was expected" [.str fn.name]] })
      else (.ret r.2.errs, r.2.realT)
  | .panicked v => (.panicked v, r.2.realT)

/-- The keys of an association list modelling a Go map. -/
def keys (m : List (String × String)) : List String :=
  m.map Prod.fst

/-- Go map assignment `fnErrs[fn] = err` on an association list:
overwrite an existing key, otherwise append the new entry. -/
def mapInsert (m : List (String × String)) (k v : String) : List (String × String) :=
  if k ∈ keys m then
    m.map (fun p => if p.1 = k then (k, v) else p)
  else m ++ [(k, v)]

/-- Insert an entry into a key-sorted association list, for rendering. -/
def insertSorted (p : String × String) : List (String × String) → List (String × String)
  | [] => [p]
  | q :: rest => if p.1 ≤ q.1 then p :: q :: rest else q :: insertSorted p rest

/-- Sort an association list by key, as `fmt` prints Go maps with sorted
keys. -/
def sortByKey (m : List (String × String)) : List (String × String) :=
  m.foldr insertSorted []

/-- Render a Go map the way `fmt`'s `%v` does: `map[k1:v1 k2:v2]` with
keys in sorted order. -/
def renderMap (m : List (String × String)) : String :=
  "map[" ++ String.intercalate " " ((sortByKey m).map (fun p => p.1 ++ ":" ++ p.2)) ++ "]"

/-- How `ParallelFatal` ends: a normal return, a single aggregated
`t.Fatalf` on the real context, or a crash because some unit's
`CaptureFatal` re-raised a non-`failure` panic inside its goroutine
(which aborts the whole program, so no aggregation happens). -/
inductive PFResult where
  | normal
  | fatalOnReal (count : Nat) (entries : List (String × String))
  | crashed (v : PanicVal)
deriving DecidableEq

/-- The units `ParallelFatal` launches, one per function: each runs
`CaptureFatal(t, fn)` and, when a message was captured, performs
`addErr(funcName(fn), err)` under the mutex.  Goroutine scheduling is
embedded as one sequential interleaving (list order); every fact proved
below about the resulting map depends only on the multiset of `addErr`
calls, which is the same under every interleaving, because the keys
written by distinct units with distinct identities never collide. -/
def runUnits : List Fn → List (String × String) → RealT →
    Option PanicVal × List (String × String) × RealT
  | [], m, t => (none, m, t)
  | fn :: rest, m, t =>
    let r := CaptureFatal t fn
    match r.1 with
    | .ret (some msg) => runUnits rest (mapInsert m fn.name msg) r.2
    | .ret none => runUnits rest m r.2
    | .panicked v => (some v, m, r.2)

/-- `ParallelFatal(t, fns...)`: run every unit, join, and if the map
`fnErrs` is non-empty raise one `t.Fatalf("ParallelFatal: %d functions
failed fatally: %v", len(fnErrs), fnErrs)` on the real context. -/
def ParallelFatal (t : RealT) (fns : List Fn) : PFResult × RealT :=
  let r := runUnits fns [] t
  match r.1 with
  | some v => (.crashed v, r.2.2)
  | none =>
    if r.2.1.length > 0 then
      (.fatalOnReal r.2.1.length r.2.1,
        { r.2.2 with fatals := r.2.2.fatals ++
            [sprintf "ParallelFatal: %d functions failed fatally: %v"
              [.int r.2.1.length, .str (renderMap r.2.1)]] })
    else (.normal, r.2.2)

/-- Whether an outcome is a fatal-signal panic (the `failure` type). -/
def RunOutcome.isFailure : RunOutcome → Bool
  | .panicked (.failureVal _) => true
  | _ => false

/-- Whether an outcome is a panic that is not a `failure`. -/
def RunOutcome.isOther : RunOutcome → Bool
  | .panicked (.other _) => true
  | _ => false

/-- The outcome of running a trace; it does not depend on the starting
state (proved below), so it is computed from the empty state. -/
def fnOutcome (acts : List TAction) : RunOutcome :=
  (runActions acts ⟨[], ⟨[], []⟩⟩).1

/-- Whether a function under test, run individually through
`CaptureFatal`, would yield a present (non-nil) message. -/
def Fn.failsFatally (fn : Fn) : Bool :=
  (fnOutcome fn.actions).isFailure

/-- The subset of a list of functions that, run individually through
`CaptureFatal`, return present. -/
def presentSubset (fns : List Fn) : List Fn :=
  fns.filter Fn.failsFatally

/-- Whether an action is one of the fatal-family calls
`FailNow`/`Fatal`/`Fatalf`. -/
def TAction.isFatalCall : TAction → Bool
  | .failNow => true
  | .fatal _ => true
  | .fatalf _ _ => true
  | _ => false

/-- Whether an action is a soft-error call `Error`/`Errorf`. -/
def TAction.isSoftError : TAction → Bool
  | .error _ => true
  | .errorf _ _ => true
  | _ => false

/-- The strings `Error`/`Errorf` calls of a trace append to `fakeT.errs`,
in call order. -/
def errsOf : List TAction → List String
  | [] => []
  | .error args :: rest => sprintln args :: errsOf rest
  | .errorf f args :: rest => sprintf f args :: errsOf rest
  | _ :: rest => errsOf rest

/-- The value `CaptureFatal` produces, as a function of the trace alone. -/
def capOf (fn : Fn) : CapResult :=
  match fnOutcome fn.actions with
  | .normal => .ret none
  | .panicked (.failureVal m) => .ret (some m)
  | .panicked (.other v) => .panicked (.other v)

/-- The outcome of a trace does not depend on the state it starts from:
no action inspects `errs` or the real context. -/
theorem runActions_fst (acts : List TAction) (s s2 : RunState) :
    (runActions acts s).1 = (runActions acts s2).1 := by
  induction acts generalizing s s2 with
  | nil => rfl
  | cons a rest ih => cases a <;> simp only [runActions] <;> first | rfl | apply ih

/-- Any run of a trace has outcome `fnOutcome` of the trace. -/
theorem fnOutcome_eq (acts : List TAction) (s : RunState) :
    (runActions acts s).1 = fnOutcome acts :=
  runActions_fst acts s ⟨[], ⟨[], []⟩⟩

/-- The returned component of `CaptureFatal` is determined by the trace. -/
theorem CaptureFatal_fst (t : RealT) (fn : Fn) :
    (CaptureFatal t fn).1 = capOf fn := by
  have h := fnOutcome_eq fn.actions (⟨[], t⟩ : RunState)
  simp only [CaptureFatal, capOf, h]

/-- A run never touches the fatal failures recorded on the real context:
only `CaptureFatal`'s callers raise fatals on it. -/
theorem runActions_fatals (acts : List TAction) (s : RunState) :
    (runActions acts s).2.realT.fatals = s.realT.fatals := by
  induction acts generalizing s with
  | nil => rfl
  | cons a rest ih => cases a <;> simp only [runActions] <;> first | rfl | exact ih _

/-- A run only ever appends to the real context's log, via the
`Log`/`Logf` delegation. -/
theorem runActions_logs (acts : List TAction) (s : RunState) :
    ∃ extra, (runActions acts s).2.realT.logs = s.realT.logs ++ extra := by
  induction acts generalizing s with
  | nil => exact ⟨[], by simp [runActions]⟩
  | cons a rest ih =>
    cases a with
    | log args =>
        obtain ⟨e, he⟩ :=
          ih { s with realT := { s.realT with logs := s.realT.logs ++ [sprintln args] } }
        refine ⟨sprintln args :: e, ?_⟩
        rw [runActions, he]
        simp
    | logf f args =>
        obtain ⟨e, he⟩ :=
          ih { s with realT := { s.realT with logs := s.realT.logs ++ [sprintf f args] } }
        refine ⟨sprintf f args :: e, ?_⟩
        rw [runActions, he]
        simp
    | failNow => exact ⟨[], by simp [runActions]⟩
    | fatal args => exact ⟨[], by simp [runActions]⟩
    | fatalf f args => exact ⟨[], by simp [runActions]⟩
    | callUnimplemented m => exact ⟨[], by simp [runActions]⟩
    | panicOther v => exact ⟨[], by simp [runActions]⟩
    | error args => exact ih _
    | errorf f args => exact ih _
    | helper => exact ih _

/-- A trace made of soft-error calls only returns normally, appends
exactly its formatted strings to `errs`, and leaves the real context
untouched. -/
theorem runActions_soft (acts : List TAction) (s : RunState)
    (h : ∀ a ∈ acts, a.isSoftError = true) :
    runActions acts s = (.normal, ⟨s.errs ++ errsOf acts, s.realT⟩) := by
  induction acts generalizing s with
  | nil => simp [runActions, errsOf]
  | cons a rest ih =>
    have ha := h a (by simp)
    have hr : ∀ b ∈ rest, b.isSoftError = true := fun b hb => h b (by simp [hb])
    cases a <;> simp [TAction.isSoftError] at ha
    case error args =>
      rw [runActions, ih _ hr]
      simp [errsOf]
    case errorf f args =>
      rw [runActions, ih _ hr]
      simp [errsOf]

/-- A normally-returning run collects exactly the trace's soft-error
strings, in call order. -/
theorem runActions_normal_errs (acts : List TAction) (s : RunState)
    (h : (runActions acts s).1 = .normal) :
    (runActions acts s).2.errs = s.errs ++ errsOf acts := by
  induction acts generalizing s with
  | nil => simp [runActions, errsOf]
  | cons a rest ih =>
    cases a with
    | failNow => simp [runActions] at h
    | fatal args => simp [runActions] at h
    | fatalf f args => simp [runActions] at h
    | callUnimplemented m => simp [runActions] at h
    | panicOther v => simp [runActions] at h
    | error args =>
        rw [runActions] at h ⊢
        rw [ih _ h]
        simp [errsOf]
    | errorf f args =>
        rw [runActions] at h ⊢
        rw [ih _ h]
        simp [errsOf]
    | log args =>
        rw [runActions] at h ⊢
        rw [ih _ h]
        simp [errsOf]
    | logf f args =>
        rw [runActions] at h ⊢
        rw [ih _ h]
        simp [errsOf]
    | helper =>
        rw [runActions] at h ⊢
        rw [ih _ h]
        simp [errsOf]

/-- `CaptureFatal` never raises a fatal failure on the real context. -/
theorem CaptureFatal_fatals (t : RealT) (fn : Fn) :
    (CaptureFatal t fn).2.fatals = t.fatals :=
  runActions_fatals fn.actions ⟨[], t⟩

/-- Overwriting an existing key leaves the map's key list unchanged. -/
theorem keys_mapInsert_of_mem (m : List (String × String)) (k v : String)
    (h : k ∈ keys m) : keys (mapInsert m k v) = keys m := by
  unfold mapInsert keys
  unfold keys at h
  rw [if_pos h, List.map_map]
  apply List.map_congr_left
  intro p _
  by_cases hp : p.1 = k
  · simp [hp]
  · simp [hp]

/-- Assigning a fresh key appends it to the map's key list. -/
theorem keys_mapInsert_of_not_mem (m : List (String × String)) (k v : String)
    (h : k ∉ keys m) : keys (mapInsert m k v) = keys m ++ [k] := by
  unfold mapInsert keys
  unfold keys at h
  rw [if_neg h]
  simp

/-- Membership in the key list after a Go map assignment. -/
theorem mem_keys_mapInsert (m : List (String × String)) (k v x : String) :
    x ∈ keys (mapInsert m k v) ↔ x ∈ keys m ∨ x = k := by
  by_cases h : k ∈ keys m
  · rw [keys_mapInsert_of_mem m k v h]
    exact ⟨Or.inl, fun hx => hx.elim id (fun e => e ▸ h)⟩
  · rw [keys_mapInsert_of_not_mem m k v h]
    simp

/-- A Go map assignment keeps the key list duplicate-free. -/
theorem nodup_keys_mapInsert (m : List (String × String)) (k v : String)
    (h : (keys m).Nodup) : (keys (mapInsert m k v)).Nodup := by
  by_cases hk : k ∈ keys m
  · rwa [keys_mapInsert_of_mem m k v hk]
  · rw [keys_mapInsert_of_not_mem m k v hk]
    simp [List.nodup_append, h, hk]

/-- Assigning a fresh key grows the map by one entry. -/
theorem length_mapInsert_of_not_mem (m : List (String × String)) (k v : String)
    (h : k ∉ keys m) : (mapInsert m k v).length = m.length + 1 := by
  unfold mapInsert
  rw [if_neg h]
  simp

/-- A function whose trace returns normally is not in the present
subset. -/
theorem failsFatally_of_normal (fn : Fn) (h : fnOutcome fn.actions = .normal) :
    fn.failsFatally = false := by
  simp [Fn.failsFatally, h, RunOutcome.isFailure]

/-- A function whose trace panics with a `failure` is in the present
subset. -/
theorem failsFatally_of_failure (fn : Fn) (msg : String)
    (h : fnOutcome fn.actions = .panicked (.failureVal msg)) :
    fn.failsFatally = true := by
  simp [Fn.failsFatally, h, RunOutcome.isFailure]

/-- `presentSubset` on a cons whose head fails fatally. -/
theorem presentSubset_cons_pos (fn : Fn) (rest : List Fn)
    (h : fn.failsFatally = true) :
    presentSubset (fn :: rest) = fn :: presentSubset rest := by
  simp [presentSubset, List.filter_cons, h]

/-- `presentSubset` on a cons whose head does not fail fatally. -/
theorem presentSubset_cons_neg (fn : Fn) (rest : List Fn)
    (h : fn.failsFatally = false) :
    presentSubset (fn :: rest) = presentSubset rest := by
  simp [presentSubset, List.filter_cons, h]

/-- A unit whose function returns normally records nothing. -/
theorem runUnits_cons_normal (fn : Fn) (rest : List Fn)
    (m : List (String × String)) (t : RealT)
    (h : fnOutcome fn.actions = .normal) :
    runUnits (fn :: rest) m t = runUnits rest m (CaptureFatal t fn).2 := by
  have hc : (CaptureFatal t fn).1 = .ret none := by
    rw [CaptureFatal_fst]
    unfold capOf
    rw [h]
  simp only [runUnits, hc]

/-- A unit whose function fails fatally records its identity and message
into the shared map. -/
theorem runUnits_cons_failure (fn : Fn) (rest : List Fn)
    (m : List (String × String)) (t : RealT) (msg : String)
    (h : fnOutcome fn.actions = .panicked (.failureVal msg)) :
    runUnits (fn :: rest) m t =
      runUnits rest (mapInsert m fn.name msg) (CaptureFatal t fn).2 := by
  have hc : (CaptureFatal t fn).1 = .ret (some msg) := by
    rw [CaptureFatal_fst]
    unfold capOf
    rw [h]
  simp only [runUnits, hc]

/-- When no unit's function raises a foreign panic, no unit crashes. -/
theorem runUnits_fst_none (fns : List Fn) (m : List (String × String)) (t : RealT)
    (h : ∀ fn ∈ fns, (fnOutcome fn.actions).isOther = false) :
    (runUnits fns m t).1 = none := by
  induction fns generalizing m t with
  | nil => rfl
  | cons fn rest ih =>
    have hfn := h fn (by simp)
    have hrest : ∀ g ∈ rest, (fnOutcome g.actions).isOther = false :=
      fun g hg => h g (List.mem_cons_of_mem _ hg)
    cases ho : fnOutcome fn.actions with
    | normal =>
        rw [runUnits_cons_normal fn rest m t ho]
        exact ih _ _ hrest
    | panicked v =>
        cases v with
        | failureVal msg =>
            rw [runUnits_cons_failure fn rest m t msg ho]
            exact ih _ _ hrest
        | other w =>
            rw [ho] at hfn
            simp [RunOutcome.isOther] at hfn

/-- The keys of the final aggregation map are the initial keys together
with the identities of the fatally failing functions. -/
theorem runUnits_keys_mem (fns : List Fn) (m : List (String × String)) (t : RealT)
    (h : ∀ fn ∈ fns, (fnOutcome fn.actions).isOther = false) (k : String) :
    k ∈ keys (runUnits fns m t).2.1 ↔
      k ∈ keys m ∨ k ∈ (presentSubset fns).map Fn.name := by
  induction fns generalizing m t with
  | nil => simp [runUnits, presentSubset]
  | cons fn rest ih =>
    have hfn := h fn (by simp)
    have hrest : ∀ g ∈ rest, (fnOutcome g.actions).isOther = false :=
      fun g hg => h g (List.mem_cons_of_mem _ hg)
    cases ho : fnOutcome fn.actions with
    | normal =>
        rw [runUnits_cons_normal fn rest m t ho,
          presentSubset_cons_neg fn rest (failsFatally_of_normal fn ho)]
        exact ih _ _ hrest
    | panicked v =>
        cases v with
        | failureVal msg =>
            rw [runUnits_cons_failure fn rest m t msg ho,
              presentSubset_cons_pos fn rest (failsFatally_of_failure fn msg ho),
              ih _ _ hrest, mem_keys_mapInsert]
            simp only [List.map_cons, List.mem_cons]
            tauto
        | other w =>
            rw [ho] at hfn
            simp [RunOutcome.isOther] at hfn

/-- The final aggregation map has duplicate-free keys. -/
theorem runUnits_keys_nodup (fns : List Fn) (m : List (String × String)) (t : RealT)
    (h : ∀ fn ∈ fns, (fnOutcome fn.actions).isOther = false)
    (hm : (keys m).Nodup) : (keys (runUnits fns m t).2.1).Nodup := by
  induction fns generalizing m t with
  | nil => exact hm
  | cons fn rest ih =>
    have hfn := h fn (by simp)
    have hrest : ∀ g ∈ rest, (fnOutcome g.actions).isOther = false :=
      fun g hg => h g (List.mem_cons_of_mem _ hg)
    cases ho : fnOutcome fn.actions with
    | normal =>
        rw [runUnits_cons_normal fn rest m t ho]
        exact ih _ _ hrest hm
    | panicked v =>
        cases v with
        | failureVal msg =>
            rw [runUnits_cons_failure fn rest m t msg ho]
            exact ih _ _ hrest (nodup_keys_mapInsert m fn.name msg hm)
        | other w =>
            rw [ho] at hfn
            simp [RunOutcome.isOther] at hfn

/-- When the identities of the fatally failing functions are pairwise
distinct and fresh, every failing unit adds exactly one entry. -/
theorem runUnits_length (fns : List Fn) (m : List (String × String)) (t : RealT)
    (h : ∀ fn ∈ fns, (fnOutcome fn.actions).isOther = false)
    (hnd : ((presentSubset fns).map Fn.name).Nodup)
    (hdisj : ∀ n ∈ (presentSubset fns).map Fn.name, n ∉ keys m) :
    (runUnits fns m t).2.1.length = m.length + (presentSubset fns).length := by
  induction fns generalizing m t with
  | nil => simp [runUnits, presentSubset]
  | cons fn rest ih =>
    have hfn := h fn (by simp)
    have hrest : ∀ g ∈ rest, (fnOutcome g.actions).isOther = false :=
      fun g hg => h g (List.mem_cons_of_mem _ hg)
    cases ho : fnOutcome fn.actions with
    | normal =>
        rw [presentSubset_cons_neg fn rest (failsFatally_of_normal fn ho)] at hnd hdisj ⊢
        rw [runUnits_cons_normal fn rest m t ho]
        exact ih _ _ hrest hnd hdisj
    | panicked v =>
        cases v with
        | failureVal msg =>
            rw [presentSubset_cons_pos fn rest
              (failsFatally_of_failure fn msg ho)] at hnd hdisj ⊢
            rw [runUnits_cons_failure fn rest m t msg ho]
            simp only [List.map_cons, List.nodup_cons] at hnd
            have hfresh : fn.name ∉ keys m := hdisj fn.name (by simp)
            have hdisj2 : ∀ n ∈ (presentSubset rest).map Fn.name,
                n ∉ keys (mapInsert m fn.name msg) := by
              intro n hn
              rw [keys_mapInsert_of_not_mem m fn.name msg hfresh]
              intro hmem
              rcases List.mem_append.mp hmem with hmem | hmem
              · exact hdisj n (by simp [hn]) hmem
              · rw [List.mem_singleton] at hmem
                exact hnd.1 (hmem ▸ hn)
            rw [ih _ _ hrest hnd.2 hdisj2,
              length_mapInsert_of_not_mem m fn.name msg hfresh]
            simp only [List.length_cons]
            omega
        | other w =>
            rw [ho] at hfn
            simp [RunOutcome.isOther] at hfn

/-- An empty real test context, for concrete checks. -/
def t0 : RealT := ⟨[], []⟩

/-- A function under test that calls `Fatalf("boom %d", 5)` once. -/
def fnBoom : Fn := ⟨"fnBoom", [.fatalf "boom %d" [.int 5]]⟩

/-- A function under test that panics with a non-`failure` value. -/
def fnPanics : Fn := ⟨"fnPanics", [.panicOther "boom"]⟩

/-- A function under test that records one error, logs, marks itself a
helper, and returns. -/
def fnSoftOnly : Fn := ⟨"fnSoftOnly", [.error [.str "x"], .log [.str "l"], .helper]⟩

/-- A function under test that calls `Error("a")` then `Error("b")`. -/
def fnAB : Fn := ⟨"fnAB", [.error [.str "a"], .error [.str "b"]]⟩

/-- A function under test that records one error only. -/
def fnErrOnly : Fn := ⟨"fnErrOnly", [.error [.str "x"]]⟩

/-- A function with identity `"f"` that calls `FailNow()`. -/
def fnIdA : Fn := ⟨"f", [.failNow]⟩

/-- A distinct function that shares identity `"f"` (two closures built
from the same code have the same `runtime.FuncForPC` name) and calls
`Fatalf("x")`. -/
def fnIdB : Fn := ⟨"f", [.fatalf "x" []]⟩

/-- A function under test that returns without doing anything. -/
def fnOk : Fn := ⟨"fnOk", []⟩

/-- Claim C2: a panic raised during `fn` that is not of the `failure`
type propagates out of `CaptureFatal` unchanged — it is re-raised by the
`default` branch of the recover type switch, not swallowed and not
converted into a returned message. -/
theorem C2_foreignPanicPropagates (t : RealT) (fn : Fn) (v : String)
    (h : fnOutcome fn.actions = .panicked (.other v)) :
    (CaptureFatal t fn).1 = .panicked (.other v) := by
  rw [CaptureFatal_fst]
  unfold capOf
  rw [h]

/-- Witness for C2 at a concrete input: a `panic("boom")` inside the
function under test escapes `CaptureFatal` as-is. -/
theorem C2_foreignPanicPropagates_witness :
    (CaptureFatal t0 fnPanics).1 = .panicked (.other "boom") :=
  C2_foreignPanicPropagates t0 fnPanics "boom" (by decide)

/-- Claim C4: a function that calls `Fatalf(f, args...)` once and does
nothing else yields a present `CaptureFatal` result whose message is the
formatted result of `f` and `args`; in particular `Fatalf("boom %d", 5)`
yields the message `"boom 5"`. -/
theorem C4_fatalfCaptured (t : RealT) (name format : String) (args : List GoVal) :
    (CaptureFatal t ⟨name, [.fatalf format args]⟩).1 =
      .ret (some (sprintf format args)) ∧
    (CaptureFatal t fnBoom).1 = .ret (some "boom 5") :=
  ⟨rfl, rfl⟩

/-- Claim C6: a function that never calls a fatal method and returns
normally yields the absent (`nil`) `CaptureFatal` result. -/
theorem C6_noFatalAbsent (t : RealT) (fn : Fn)
    (_hfatal : ∀ a ∈ fn.actions, a.isFatalCall = false)
    (hnorm : fnOutcome fn.actions = .normal) :
    (CaptureFatal t fn).1 = .ret none := by
  rw [CaptureFatal_fst]
  unfold capOf
  rw [hnorm]

/-- Witness for C6 at a concrete input: soft errors, logging and
`Helper` do not make `CaptureFatal` report a fatal failure. -/
theorem C6_noFatalAbsent_witness : (CaptureFatal t0 fnSoftOnly).1 = .ret none :=
  C6_noFatalAbsent t0 fnSoftOnly (by decide) (by decide)

/-- Claim C7: `FailNow()` raises a `failure` carrying the empty message,
so a function that calls `FailNow()` and does nothing else yields a
present `CaptureFatal` result with the empty string as message. -/
theorem C7_failNowEmptyMessage (t : RealT) (name : String) :
    (runActions [TAction.failNow] ⟨[], t⟩).1 = .panicked (.failureVal "") ∧
    (CaptureFatal t ⟨name, [TAction.failNow]⟩).1 = .ret (some "") :=
  ⟨rfl, rfl⟩

/-- Claim C8: calling a `testing.TB` method `fakeT` does not implement
dispatches to the nil embedded interface and panics with a runtime error
— a non-`failure` panic that even `CaptureFatal` re-raises instead of
swallowing — while `Helper()` is a pure no-op. -/
theorem C8_unimplementedPanics (t : RealT) (name method : String)
    (rest : List TAction) (s : RunState) :
    runActions (TAction.callUnimplemented method :: rest) s =
      (.panicked (.other nilDerefMsg), s) ∧
    (CaptureFatal t ⟨name, [TAction.callUnimplemented method]⟩).1 =
      .panicked (.other nilDerefMsg) ∧
    runActions (TAction.helper :: rest) s = runActions rest s :=
  ⟨rfl, rfl, rfl⟩

/-- Claim C9: `ParallelFatal` with zero functions launches no unit, the
aggregation map stays empty, the non-empty check does not fire, and the
real context is returned untouched. -/
theorem C9_emptyParallelFatal (t : RealT) : ParallelFatal t [] = (.normal, t) :=
  rfl

/-- Claim C10: `CaptureFatal` never raises a fatal failure on the real
context and only ever appends log lines to it; a function that only
records soft errors leaves the real context exactly unchanged and
produces the absent result — the recorded errors are discarded with the
`fakeT`, never read and never forwarded. -/
theorem C10_softErrorsDiscarded (t : RealT) (fn : Fn) :
    (CaptureFatal t fn).2.fatals = t.fatals ∧
    (∃ extra, (CaptureFatal t fn).2.logs = t.logs ++ extra) ∧
    ((∀ a ∈ fn.actions, a.isSoftError = true) →
      CaptureFatal t fn = (.ret none, t)) := by
  refine ⟨CaptureFatal_fatals t fn, runActions_logs fn.actions ⟨[], t⟩, ?_⟩
  intro h
  have hs := runActions_soft fn.actions ⟨[], t⟩ h
  simp only [CaptureFatal, hs]

/-- Witness for C10 at a concrete input: one recorded error, nothing
observable on the real context. -/
theorem C10_softErrorsDiscarded_witness :
    CaptureFatal t0 fnErrOnly = (.ret none, t0) :=
  (C10_softErrorsDiscarded t0 fnErrOnly).2.2 (by decide)

/-- Claim C3: `ExpectFatal` raises a fatal failure on the real context —
with the message `"<identity> did not fail fatally as expected"` — if and
only if `CaptureFatal` returns absent; when `CaptureFatal` returns a
present message, `ExpectFatal` returns that message and raises nothing on
the real context. -/
theorem C3_expectFatalIff (t : RealT) (fn : Fn) :
    (((ExpectFatal t fn).1 = .fatalOnReal ∧
        (ExpectFatal t fn).2.fatals =
          t.fatals ++ [sprintf "%s did not fail fatally as expected" [.str fn.name]])
      ↔ (CaptureFatal t fn).1 = .ret none) ∧
    (∀ m, (CaptureFatal t fn).1 = .ret (some m) →
      (ExpectFatal t fn).1 = .ret m ∧
      (ExpectFatal t fn).2 = (CaptureFatal t fn).2 ∧
      (ExpectFatal t fn).2.fatals = t.fatals) := by
  have hfat := CaptureFatal_fatals t fn
  cases hc : (CaptureFatal t fn).1 with
  | ret o =>
      cases o with
      | none =>
          refine ⟨⟨fun _ => rfl, fun _ => ⟨?_, ?_⟩⟩, ?_⟩
          · simp [ExpectFatal, hc]
          · simp [ExpectFatal, hc, hfat]
          · intro m hm
            simp at hm
      | some msg =>
          refine ⟨⟨?_, ?_⟩, ?_⟩
          · rintro ⟨h1, _⟩
            simp [ExpectFatal, hc] at h1
          · intro hnone
            simp at hnone
          · intro m hm
            simp only [CapResult.ret.injEq, Option.some.injEq] at hm
            subst hm
            exact ⟨by simp [ExpectFatal, hc], by simp [ExpectFatal, hc],
              by simp [ExpectFatal, hc, hfat]⟩
  | panicked v =>
      refine ⟨⟨?_, ?_⟩, ?_⟩
      · rintro ⟨h1, _⟩
        simp [ExpectFatal, hc] at h1
      · intro hnone
        simp at hnone
      · intro m hm
        simp at hm

/-- Witness for C3 at a concrete input: `fnBoom` fails fatally, so
`ExpectFatal` returns its message and leaves the real context's fatal
list untouched. -/
theorem C3_expectFatalIff_witness :
    (ExpectFatal t0 fnBoom).1 = .ret "boom 5" ∧
    (ExpectFatal t0 fnBoom).2.fatals = t0.fatals :=
  ⟨((C3_expectFatalIff t0 fnBoom).2 "boom 5" (by decide)).1,
   ((C3_expectFatalIff t0 fnBoom).2 "boom 5" (by decide)).2.2⟩

/-- Claim C5: for a function that only records soft errors (and possibly
logs) and returns normally, `ExpectError` returns the formatted error
strings in call order; when no error was recorded it instead raises a
fatal failure on the real context naming the function; in particular
`Error("a")` then `Error("b")` yields `["a\n", "b\n"]`. -/
theorem C5_expectErrorOrder (t : RealT) (fn : Fn)
    (hnorm : fnOutcome fn.actions = .normal) :
    (errsOf fn.actions ≠ [] → (ExpectError t fn).1 = .ret (errsOf fn.actions)) ∧
    (errsOf fn.actions = [] →
      (ExpectError t fn).1 = .fatalOnReal ∧
      (ExpectError t fn).2.fatals = t.fatals ++
        [sprintf "%s did not raise an error as was expected" [.str fn.name]]) ∧
    (ExpectError t fnAB).1 = .ret ["a\n", "b\n"] := by
  have h1 : (runActions fn.actions ⟨[], t⟩).1 = .normal := by
    rw [fnOutcome_eq]
    exact hnorm
  have h2 : (runActions fn.actions ⟨[], t⟩).2.errs = errsOf fn.actions := by
    simpa using runActions_normal_errs fn.actions ⟨[], t⟩ h1
  have h3 := runActions_fatals fn.actions (⟨[], t⟩ : RunState)
  refine ⟨?_, ?_, rfl⟩
  · intro hne
    have hie : (errsOf fn.actions).isEmpty = false := by
      cases herr : errsOf fn.actions with
      | nil => exact absurd herr hne
      | cons a l => rfl
    simp [ExpectError, h1, h2, hie]
  · intro he
    have hie : (errsOf fn.actions).isEmpty = true := by
      rw [he]
      rfl
    exact ⟨by simp [ExpectError, h1, h2, hie],
      by simp [ExpectError, h1, h2, hie, h3]⟩

/-- Witness for C5 at a concrete input: the two recorded errors come
back in call order, each with `Sprintln`'s trailing newline. -/
theorem C5_expectErrorOrder_witness :
    (ExpectError t0 fnAB).1 = .ret ["a\n", "b\n"] :=
  (C5_expectErrorOrder t0 fnAB (by decide)).1 (by decide)

/-- Claim C1 counterexample: two distinct functions sharing the identity
string `"f"` (as `runtime.FuncForPC` gives closures built from the same
code) both fail fatally, yet the aggregated failure of `ParallelFatal`
reports only one map entry and states the count `1`, not the size `2` of
the subset that `CaptureFatal` reports present — the map keyed by
identity collapses them. -/
theorem C1_counterexample :
    fnIdA.failsFatally = true ∧ fnIdB.failsFatally = true ∧
    (presentSubset [fnIdA, fnIdB]).length = 2 ∧
    (ParallelFatal t0 [fnIdA, fnIdB]).1 = .fatalOnReal 1 [("f", "x")] := by
  decide

/-- Claim C1 (amended): assuming no function raises a foreign panic (a
crashed goroutine aborts the program before any aggregation),
`ParallelFatal` returns normally iff the subset that `CaptureFatal`
reports present is empty; otherwise it raises a single aggregated fatal
failure whose reported identity set is exactly the set of identities of
that subset, whose stated count is the number of distinct identities
recorded, and which equals the size of the subset whenever the failing
identities are pairwise distinct. -/
theorem C1_parallelFatalAggregate (t : RealT) (fns : List Fn)
    (h : ∀ fn ∈ fns, (fnOutcome fn.actions).isOther = false) :
    ((ParallelFatal t fns).1 = .normal ↔ presentSubset fns = []) ∧
    (∀ c m, (ParallelFatal t fns).1 = .fatalOnReal c m →
      ((∀ k, k ∈ keys m ↔ k ∈ (presentSubset fns).map Fn.name) ∧
       c = m.length ∧ (keys m).Nodup ∧
       (((presentSubset fns).map Fn.name).Nodup →
         c = (presentSubset fns).length))) := by
  have hnone := runUnits_fst_none fns [] t h
  have hkeys2 : ∀ k, k ∈ keys (runUnits fns [] t).2.1 ↔
      k ∈ (presentSubset fns).map Fn.name := by
    intro k
    rw [runUnits_keys_mem fns [] t h k]
    simp [keys]
  have hempty : (runUnits fns [] t).2.1 = [] ↔ presentSubset fns = [] := by
    constructor
    · intro he
      have hm : (presentSubset fns).map Fn.name = [] := by
        refine List.eq_nil_iff_forall_not_mem.mpr (fun k hk => ?_)
        have := (hkeys2 k).mpr hk
        rw [he] at this
        simp [keys] at this
      exact List.map_eq_nil_iff.mp hm
    · intro he
      have hm : keys (runUnits fns [] t).2.1 = [] := by
        refine List.eq_nil_iff_forall_not_mem.mpr (fun k hk => ?_)
        have := (hkeys2 k).mp hk
        rw [he] at this
        simp at this
      unfold keys at hm
      exact List.map_eq_nil_iff.mp hm
  constructor
  · by_cases hM : (runUnits fns [] t).2.1 = []
    · simp [ParallelFatal, hnone, hM, hempty.mp hM]
    · have hlen : 0 < (runUnits fns [] t).2.1.length := List.length_pos.mpr hM
      constructor
      · intro hn
        simp [ParallelFatal, hnone, hlen] at hn
      · intro hp
        exact absurd (hempty.mpr hp) hM
  · intro c m hcm
    by_cases hM : (runUnits fns [] t).2.1 = []
    · simp [ParallelFatal, hnone, hM] at hcm
    · have hlen : 0 < (runUnits fns [] t).2.1.length := List.length_pos.mpr hM
      have hred : (ParallelFatal t fns).1 =
          .fatalOnReal (runUnits fns [] t).2.1.length (runUnits fns [] t).2.1 := by
        simp [ParallelFatal, hnone, hlen]
      rw [hred] at hcm
      injection hcm with hc2 hm2
      subst hm2
      subst hc2
      refine ⟨hkeys2, rfl, ?_, ?_⟩
      · exact runUnits_keys_nodup fns [] t h (by simp [keys])
      · intro hnd
        have := runUnits_length fns [] t h hnd (by simp [keys])
        simpa using this

/-- Witness for the amended C1 at a concrete input: of `fnIdA` (fails
fatally) and `fnOk` (returns normally), exactly one function is reported,
and the stated count equals the size of the present subset. -/
theorem C1_parallelFatalAggregate_witness :
    1 = (presentSubset [fnIdA, fnOk]).length :=
  ((C1_parallelFatalAggregate t0 [fnIdA, fnOk] (by decide)).2 1 [("f", "")]
    (by decide)).2.2.2 (by decide)

end Testt
